import Mathlib

/-!
Verification of the Rackster event pipeline against its specification.

The development shallowly embeds the core of the repository:
* `EventManager` (src/src/events/event-manager.ts): filters, per-type and
  wildcard listener sets, bounded history;
* `EventNotifier` (the notifier source file): importance gate and formatting;
* `BotEventRegistry` (the adapter source file): per-signal handlers that
  build normalized events and pass them to `createAndEmit`.

Numbers appearing in payloads (positions, health) are embedded as rationals
(`ℚ`), with JavaScript's `Math.floor` embedded as `Rat.floor`; timestamps
are naturals (`Date.now()` values).  Listeners are identified by numeric
ids; a finite environment table maps each id to the subscription operations
the listener performs when invoked and to whether it then throws, so that
reentrant subscription changes and thrown exceptions during fan-out are
observable.  JavaScript `Set` iteration under mutation is modelled by
visiting, at each step, the first not-yet-visited element of the current
(live) insertion-ordered set: elements removed before being visited are
skipped and elements appended during iteration are visited.
-/

/-- Event severities, from `EventSeverity` in src/src/events/event-types.ts. -/
inductive EventSeverity where
  | info
  | warning
  | error
  | success
deriving DecidableEq, Repr

/-- A coordinate triple as carried by raw signals (`Vec3`); components are
JavaScript numbers, embedded as rationals. -/
structure Vec3 where
  x : ℚ
  y : ℚ
  z : ℚ
deriving DecidableEq, Repr

/-- Componentwise `Math.floor`, as applied by the adapter before embedding a
position into a payload. -/
def floorVec (p : Vec3) : Vec3 :=
  ⟨(⌊p.x⌋ : ℚ), (⌊p.y⌋ : ℚ), (⌊p.z⌋ : ℚ)⟩

/-- A position whose three coordinates are integers. -/
def isIntVec (p : Vec3) : Prop :=
  p.x.den = 1 ∧ p.y.den = 1 ∧ p.z.den = 1

instance (p : Vec3) : Decidable (isIntVec p) := by
  unfold isIntVec; infer_instance

/-- The optional `data` payload of an event: the open mapping of named
fields used by the handlers in the sources.  Absent fields are `none`. -/
structure EventData where
  position : Option Vec3 := none
  username : Option String := none
  message : Option String := none
  isBot : Option Bool := none
  isWhisper : Option Bool := none
  health : Option ℚ := none
  maxHealth : Option ℚ := none
  entityId : Option Nat := none
  entityType : Option String := none
  entityName : Option String := none
  blockType : Option Nat := none
  blockName : Option String := none
  oldBlockType : Option Nat := none
  itemName : Option String := none
  reason : Option String := none
  onGround : Option Bool := none
  errorMsg : Option String := none
  errorCode : Option String := none
deriving DecidableEq, Repr

/-- `MinecraftEvent` from src/src/events/event-types.ts: kind tag, timestamp,
severity, description, optional payload. -/
structure MinecraftEvent where
  type : String
  timestamp : Nat
  severity : EventSeverity
  description : String
  data : Option EventData := none
deriving DecidableEq, Repr

/-- A subscription operation a listener may perform on the manager while it
is being invoked (reentrant `on`/`off` calls); the event type `*` denotes
the wildcard set, as in the source. -/
inductive SubOp where
  | subscribe (eventType : String) (l : Nat)
  | unsubscribe (eventType : String) (l : Nat)
deriving DecidableEq, Repr

/-- Behaviour of a listener: the subscription operations it performs when
invoked, and whether it then throws.  Ids absent from the environment table
do nothing and do not throw. -/
structure ListenerBehavior where
  ops : List SubOp
  throws : Bool
deriving DecidableEq, Repr

/-- The environment table assigning behaviours to listener ids. -/
abbrev ListenerEnv := List (Nat × ListenerBehavior)

/-- Look a listener id up in the environment table. -/
def lookupBehavior (env : ListenerEnv) (l : Nat) : ListenerBehavior :=
  match env.find? (fun p => p.1 == l) with
  | some p => p.2
  | none => ⟨[], false⟩

/-- The state of an `EventManager` (src/src/events/event-manager.ts): the
per-type listener map (`Map<string, Set<EventListener>>`, insertion
ordered), the wildcard listener set (`globalListeners`), the filter chain
(`Set<EventFilter>`, iterated in insertion order), the history buffer and
its capacity. -/
structure ManagerState where
  listeners : List (String × List Nat)
  globalListeners : List Nat
  filters : List (MinecraftEvent → Bool)
  eventHistory : List MinecraftEvent
  maxHistorySize : Nat

/-- A freshly constructed `EventManager`: empty registries, empty history,
default capacity 1000. -/
def initialManagerState : ManagerState :=
  ⟨[], [], [], [], 1000⟩

/-- The live listener set stored in the map for a given event type (empty
when the key is absent). -/
def getTypeListeners (st : ManagerState) (t : String) : List Nat :=
  match st.listeners.find? (fun p => p.1 == t) with
  | some p => p.2
  | none => []

/-- Replace the listener set stored for a given event type, creating the
entry when absent (as `Map.set` does). -/
def setTypeListeners (st : ManagerState) (t : String) (ls : List Nat) : ManagerState :=
  if (st.listeners.find? (fun p => p.1 == t)).isSome then
    { st with listeners := st.listeners.map (fun p => if p.1 == t then (p.1, ls) else p) }
  else
    { st with listeners := st.listeners ++ [(t, ls)] }

/-- `EventManager.on`: `*` adds to the wildcard set, otherwise to the
per-type set (created on demand); `Set.add` keeps an already present member
at its original position. -/
def ManagerState.on (st : ManagerState) (eventType : String) (l : Nat) : ManagerState :=
  if eventType == "*" then
    if l ∈ st.globalListeners then st
    else { st with globalListeners := st.globalListeners ++ [l] }
  else
    let cur := getTypeListeners st eventType
    if l ∈ cur then st else setTypeListeners st eventType (cur ++ [l])

/-- `EventManager.off`: `*` deletes from the wildcard set, otherwise from
the per-type set when the entry exists (`?.delete`, a no-op otherwise). -/
def ManagerState.off (st : ManagerState) (eventType : String) (l : Nat) : ManagerState :=
  if eventType == "*" then
    { st with globalListeners := st.globalListeners.erase l }
  else
    match st.listeners.find? (fun p => p.1 == eventType) with
    | some _ => setTypeListeners st eventType ((getTypeListeners st eventType).erase l)
    | none => st

/-- Apply one reentrant subscription operation. -/
def applySubOp (st : ManagerState) : SubOp → ManagerState
  | .subscribe t l => st.on t l
  | .unsubscribe t l => st.off t l

/-- Invoke a listener: it performs its subscription operations on the
manager and reports whether it throws afterwards. -/
def invokeListener (env : ListenerEnv) (st : ManagerState) (l : Nat) :
    ManagerState × Bool :=
  ((lookupBehavior env l).ops.foldl applySubOp st, (lookupBehavior env l).throws)

/-- One fan-out loop of `emit` over a live JavaScript `Set`: at each step the
first element of the current set (in insertion order) that has not yet been
visited is invoked.  This models `for..of` over a `Set` the loop body may
mutate: elements removed before being visited are skipped, elements appended
during iteration are visited.  The `try`/`catch` around each invocation in
the source is modelled by discarding the thrown flag and continuing.  The
accumulated `visited` list is the invocation order.  Fuel bounds the number
of steps; `emit` supplies enough fuel for every finite environment table. -/
def fanoutLoop (env : ListenerEnv) (getSet : ManagerState → List Nat) :
    Nat → ManagerState → List Nat → ManagerState × List Nat
  | 0, st, visited => (st, visited)
  | fuel + 1, st, visited =>
    match (getSet st).find? (fun l => !decide (l ∈ visited)) with
    | none => (st, visited)
    | some l =>
      let st' := (invokeListener env st l).1
      fanoutLoop env getSet fuel st' (visited ++ [l])

/-- The filter loop at the top of `emit`: returns `false` as soon as one
filter rejects the event (short-circuit), `true` when all accept. -/
def runFilters : List (MinecraftEvent → Bool) → MinecraftEvent → Bool
  | [], _ => true
  | f :: fs, e => if !(f e) then false else runFilters fs e

/-- `EventManager.addToHistory`: push the event, then drop the oldest entry
when the length exceeds the capacity (a single `shift`). -/
def addToHistory (st : ManagerState) (event : MinecraftEvent) : ManagerState :=
  let h := st.eventHistory ++ [event]
  if h.length > st.maxHistorySize then { st with eventHistory := h.tail }
  else { st with eventHistory := h }

/-- `EventManager.setMaxHistorySize`: sets the capacity field only; the
buffer itself is not trimmed. -/
def setMaxHistorySize (st : ManagerState) (size : Nat) : ManagerState :=
  { st with maxHistorySize := size }

/-- `EventManager.clearHistory`. -/
def clearHistory (st : ManagerState) : ManagerState :=
  { st with eventHistory := [] }

/-- Total number of subscription operations an environment table can ever
perform; used to bound the fan-out fuel. -/
def envOpsCount (env : ListenerEnv) : Nat :=
  (env.map (fun p => p.2.ops.length)).sum

/-- The outcome of one `emit` call: the final manager state, the per-type
and wildcard invocation logs (listener ids in invocation order), and whether
the event passed the filter chain. -/
structure EmitResult where
  state : ManagerState
  typedInvoked : List Nat
  wildcardInvoked : List Nat
  accepted : Bool

/-- `EventManager.emit`: run the filter chain (returning with no side
effects on the first rejection), append to history, then invoke the live
per-type listener set for `event.type` (when the map has the entry) and
then the live wildcard set, catching per-listener exceptions. -/
def emit (env : ListenerEnv) (st : ManagerState) (event : MinecraftEvent) :
    EmitResult :=
  if !(runFilters st.filters event) then ⟨st, [], [], false⟩
  else
    let st1 := addToHistory st event
    let fuel := st1.globalListeners.length + (getTypeListeners st1 event.type).length +
      envOpsCount env + 1
    let typed :=
      if (st1.listeners.find? (fun p => p.1 == event.type)).isSome then
        fanoutLoop env (fun s => getTypeListeners s event.type) fuel st1 []
      else (st1, [])
    let wild := fanoutLoop env (fun s => s.globalListeners) fuel typed.1 []
    ⟨wild.1, typed.2, wild.2, true⟩

/-- `EventManager.createAndEmit`: stamp the current time and delegate to
`emit` (the `now` argument stands for `Date.now()`). -/
def createAndEmit (env : ListenerEnv) (st : ManagerState) (type : String)
    (severity : EventSeverity) (description : String) (data : Option EventData)
    (now : Nat) : EmitResult :=
  emit env st ⟨type, now, severity, description, data⟩

/-- JavaScript `Array.prototype.slice` with one argument: a negative start
counts from the end (clamped at 0), a non-negative start is clamped at the
length. -/
def jsSliceFrom (xs : List MinecraftEvent) (start : Int) : List MinecraftEvent :=
  let len : Int := xs.length
  let s : Int := if start < 0 then max (len + start) 0 else min start len
  xs.drop s.toNat

/-- `EventManager.getHistory`: optionally filter by type — the source tests
`if (eventType)`, so the empty string (falsy) is treated like an absent
argument — then take `events.slice(-limit)` (default limit 100). -/
def getHistory (st : ManagerState) (eventType : Option String)
    (limit : Int := 100) : List MinecraftEvent :=
  let events := match eventType with
    | some t => if t == "" then st.eventHistory
        else st.eventHistory.filter (fun e => e.type == t)
    | none => st.eventHistory
  jsSliceFrom events (-limit)

/-- Sample events used in concrete instances. -/
def evA : MinecraftEvent := ⟨"chat", 1, .info, "a", none⟩

def evB : MinecraftEvent := ⟨"chat", 2, .info, "b", none⟩

/-- State of the `EventNotifier`: whether an MCP server instance is
attached, the enabled flag, and the mutable set of important event types. -/
structure NotifierState where
  hasServer : Bool
  enabled : Bool
  importantEventTypes : List String
deriving DecidableEq, Repr

/-- The fixed default importance set installed by the `EventNotifier`
constructor. -/
def defaultImportantEventTypes : List String :=
  ["chat", "death", "respawn", "kicked", "error", "entity_hurt", "entity_death",
   "block_break", "block_place", "item_collect", "damage", "health_change",
   "gamemode_change", "spawn", "login"]

/-- A freshly constructed `EventNotifier`: no server attached yet, enabled,
default importance set. -/
def initialNotifierState : NotifierState :=
  ⟨false, true, defaultImportantEventTypes⟩

/-- `EventNotifier.setEnabled`. -/
def setEnabled (n : NotifierState) (b : Bool) : NotifierState :=
  { n with enabled := b }

/-- `EventNotifier.addImportantEventType` (`Set.add`, idempotent). -/
def addImportantEventType (n : NotifierState) (t : String) : NotifierState :=
  if t ∈ n.importantEventTypes then n
  else { n with importantEventTypes := n.importantEventTypes ++ [t] }

/-- `EventNotifier.removeImportantEventType`. -/
def removeImportantEventType (n : NotifierState) (t : String) : NotifierState :=
  { n with importantEventTypes := n.importantEventTypes.erase t }

/-- The severity glyph table in `formatEventForAI`. -/
def severityEmoji : EventSeverity → String
  | .info => "ℹ️"
  | .warning => "⚠️"
  | .error => "❌"
  | .success => "✅"

/-- JavaScript string truthiness for an optional string field: present and
non-empty. -/
def jsTruthyStr (s : Option String) : Bool :=
  match s with
  | some v => v != ""
  | none => false

/-- `formatEventData`: the recognized payload fields rendered in their fixed
order (position, username, health pair, entity type, block name, reason,
message), joined by commas; unrecognized fields are ignored.  Numbers are
rendered with `toString` in place of JavaScript number formatting. -/
def formatEventData (d : EventData) : String :=
  let parts : List String :=
    (match d.position with
     | some pos => ["位置: (" ++ toString pos.x ++ ", " ++ toString pos.y ++ ", " ++
         toString pos.z ++ ")"]
     | none => []) ++
    (if jsTruthyStr d.username then ["玩家: " ++ d.username.getD ""] else []) ++
    (match d.health, d.maxHealth with
     | some h, some mh => ["生命值: " ++ toString h ++ "/" ++ toString mh]
     | _, _ => []) ++
    (if jsTruthyStr d.entityType then ["实体类型: " ++ d.entityType.getD ""] else []) ++
    (if jsTruthyStr d.blockName then ["方块: " ++ d.blockName.getD ""] else []) ++
    (if jsTruthyStr d.reason then ["原因: " ++ d.reason.getD ""] else []) ++
    (if jsTruthyStr d.message then ["消息: " ++ d.message.getD ""] else [])
  String.intercalate ", " parts

/-- `formatEventForAI`: severity glyph, timestamp (the locale time string is
abstracted as the decimal timestamp), description, and a second line with
the formatted payload when it yields any text. -/
def formatEventForAI (e : MinecraftEvent) : String :=
  let head := severityEmoji e.severity ++ " [" ++ toString e.timestamp ++ "] " ++ e.description
  match e.data with
  | some d =>
    let dataStr := formatEventData d
    if dataStr != "" then head ++ "\n   详情: " ++ dataStr else head
  | none => head

/-- `EventNotifier.notify`: when disabled, return immediately (before any
formatting); otherwise decide importance — type in the importance set, or
severity error, or severity warning — and, when important, format the
message and attempt delivery (through the MCP server when attached, else
the local log sink).  Returns the formatted message whose delivery is
attempted, `none` when no delivery is attempted. -/
def notify (n : NotifierState) (e : MinecraftEvent) : Option String :=
  if !n.enabled then none
  else
    let shouldNotify := n.importantEventTypes.contains e.type ||
      e.severity == .error || e.severity == .warning
    if !shouldNotify then none
    else some (formatEventForAI e)

/-- JavaScript `a || b` on a possibly absent string (`entity.name ||
entity.type`): the fallback is used when `a` is absent or empty. -/
def jsStrOr (a : Option String) (b : String) : String :=
  match a with
  | some s => if s == "" then b else s
  | none => b

/-- The event the adapter's `spawn` handler passes to `createAndEmit`: the
bot position, when available, is floored componentwise. -/
def spawnHandlerEvent (pos : Option Vec3) (username : String) (now : Nat) :
    MinecraftEvent :=
  ⟨"spawn", now, .success, "机器人已生成在世界中",
   some { position := pos.map floorVec, username := some username }⟩

/-- The event the `login` handler passes to `createAndEmit`. -/
def loginHandlerEvent (username : String) (now : Nat) : MinecraftEvent :=
  ⟨"login", now, .info, "机器人已登录服务器", some { username := some username }⟩

/-- The event the `kicked` handler passes to `createAndEmit`; `reason` is
the output of `formatError`. -/
def kickedHandlerEvent (botUsername reason : String) (now : Nat) : MinecraftEvent :=
  ⟨"kicked", now, .error, "机器人被服务器踢出: " ++ reason,
   some { reason := some reason, username := some botUsername }⟩

/-- The event the `end` handler passes to `createAndEmit`. -/
def endHandlerEvent (reason : String) (now : Nat) : MinecraftEvent :=
  ⟨"end", now, .warning, "机器人连接已断开: " ++ reason, some { reason := some reason }⟩

/-- The adapter's `chat` handler: a message whose sender equals the bot's
own username returns before any event is built; otherwise exactly one
`chat` event is passed to `createAndEmit`. -/
def chatHandler (botUsername username message : String) (now : Nat) :
    List MinecraftEvent :=
  if username == botUsername then []
  else
    [⟨"chat", now, .info, username ++ ": " ++ message,
      some { username := some username, message := some message, isBot := some false }⟩]

/-- The adapter's `whisper` handler: one `chat` event for every whisper;
the handler performs no sender check. -/
def whisperHandler (_botUsername username message : String) (now : Nat) :
    List MinecraftEvent :=
  [⟨"chat", now, .info, "[私聊] " ++ username ++ ": " ++ message,
    some { username := some username, message := some message,
           isBot := some false, isWhisper := some true }⟩]

/-- The observable fields of a raw entity handle used by the entity
handlers. -/
structure EntityInfo where
  id : Nat
  type : String
  name : Option String
  position : Option Vec3
  health : Option ℚ
deriving DecidableEq, Repr

/-- The event the `entityHurt` handler passes to `createAndEmit`: the
position is floored, the health field is included unchanged. -/
def entityHurtHandlerEvent (ent : EntityInfo) (now : Nat) : MinecraftEvent :=
  ⟨"entity_hurt", now, .info, "实体 " ++ jsStrOr ent.name ent.type ++ " 受到伤害",
   some { entityId := some ent.id, entityType := some ent.type, entityName := ent.name,
          position := ent.position.map floorVec, health := ent.health }⟩

/-- The event the `entityDead` handler passes to `createAndEmit`. -/
def entityDeadHandlerEvent (ent : EntityInfo) (now : Nat) : MinecraftEvent :=
  ⟨"entity_death", now, .info, "实体 " ++ jsStrOr ent.name ent.type ++ " 死亡",
   some { entityId := some ent.id, entityType := some ent.type, entityName := ent.name,
          position := ent.position.map floorVec }⟩

/-- The event the `entitySpawn` handler passes to `createAndEmit`. -/
def entitySpawnHandlerEvent (ent : EntityInfo) (now : Nat) : MinecraftEvent :=
  ⟨"entity_spawn", now, .info, "实体 " ++ jsStrOr ent.name ent.type ++ " 生成",
   some { entityId := some ent.id, entityType := some ent.type, entityName := ent.name,
          position := ent.position.map floorVec }⟩

/-- The observable fields of a raw block handle. -/
structure Block where
  name : String
  type : Nat
  position : Vec3
deriving DecidableEq, Repr

/-- The `blockUpdate` handler: when the old block exists and its type
differs from the new block's, one `block_update` event is built; the
position is taken from the new block unchanged (no `Math.floor`). -/
def blockUpdateHandler (oldBlock : Option Block) (newBlock : Block) (now : Nat) :
    List MinecraftEvent :=
  match oldBlock with
  | some ob =>
    if ob.type ≠ newBlock.type then
      [⟨"block_update", now, .info, "方块更新: " ++ ob.name ++ " -> " ++ newBlock.name,
        some { position := some newBlock.position, blockType := some newBlock.type,
               blockName := some newBlock.name, oldBlockType := some ob.type }⟩]
    else []
  | none => []

/-- The `blockBreakProgressObserved` handler: only the terminal destroy
stage 9 yields a `block_break` event; the position is the raw block
position (no `Math.floor`). -/
def blockBreakHandler (block : Block) (destroyStage : Nat) (now : Nat) :
    List MinecraftEvent :=
  if destroyStage == 9 then
    [⟨"block_break", now, .info, "方块被破坏: " ++ block.name,
      some { position := some block.position, blockType := some block.type,
             blockName := some block.name }⟩]
  else []

/-- The event the `itemDrop` handler passes to `createAndEmit`: the dropped
entity's position is floored when present. -/
def itemDropHandlerEvent (itemName : String) (pos : Option Vec3) (now : Nat) :
    MinecraftEvent :=
  ⟨"item_drop", now, .info, "物品掉落: " ++ itemName,
   some { itemName := some itemName, position := pos.map floorVec }⟩

/-- The event the `death` handler passes to `createAndEmit`. -/
def deathHandlerEvent (pos : Option Vec3) (now : Nat) : MinecraftEvent :=
  ⟨"death", now, .error, "机器人死亡", some { position := pos.map floorVec }⟩

/-- The event the `respawn` handler passes to `createAndEmit`. -/
def respawnHandlerEvent (pos : Option Vec3) (now : Nat) : MinecraftEvent :=
  ⟨"respawn", now, .success, "机器人重生", some { position := pos.map floorVec }⟩

/-- The closure state of the `move` handler registered by
`registerMovementEvents`: `lastMoveTime`, initialized to 0 at registration. -/
structure MoveState where
  lastMoveTime : Nat
deriving DecidableEq, Repr

/-- The `move` handler: drop the signal when fewer than 500 ms have passed
since `lastMoveTime` (`Date.now()` differences; a clock that went backwards
also yields a drop, as the truncated subtraction matches the negative
JavaScript difference being `< 500`); otherwise update `lastMoveTime`, then
require a current position, and emit one `move` event with the floored
position. -/
def moveHandler (st : MoveState) (now : Nat) (currentPos : Option Vec3)
    (onGround : Option Bool) : MoveState × List MinecraftEvent :=
  if now - st.lastMoveTime < 500 then (st, [])
  else
    let st' : MoveState := ⟨now⟩
    match currentPos with
    | none => (st', [])
    | some p =>
      (st', [⟨"move", now, .info, "机器人移动",
        some { position := some (floorVec p), onGround := onGround }⟩])

/-- Run the `move` handler over a sequence of raw signals (time, optional
position, onGround), threading the closure state and concatenating the
emitted events. -/
def processMoves (st : MoveState) :
    List (Nat × Option Vec3 × Option Bool) → MoveState × List MinecraftEvent
  | [] => (st, [])
  | (t, p, g) :: rest =>
    let r := moveHandler st t p g
    let r' := processMoves r.1 rest
    (r'.1, r.2 ++ r'.2)

/-- Modelled from the spec's movement-coalescing rule, in its own words: a
movement signal is emitted iff at least 500 ms have elapsed since the last
emitted movement event (a signal with no previous emitted event is
emitted); in-window signals are dropped, not queued. -/
def specMovementTimes : Option Nat → List Nat → List Nat
  | _, [] => []
  | none, t :: ts => t :: specMovementTimes (some t) ts
  | some last, t :: ts =>
    if t - last < 500 then specMovementTimes (some last) ts
    else t :: specMovementTimes (some t) ts

/-- A raw connection-lifecycle signal together with the data the handler
reads from the bot when it fires. -/
inductive ConnSignal where
  | spawnSig (pos : Option Vec3)
  | loginSig
  | kickedSig (reason : String)
  | endSig (reason : String)
deriving DecidableEq, Repr

/-- Dispatch one raw connection signal.  The `spawn` handler is registered
with `bot.once`, modelled by the `armed` flag: a spawn signal produces an
event only while the handler is armed, and disarms it; `login`, `kicked`
and `end` are registered with `bot.on` and fire every time. -/
def handleConnSignal (botUsername : String) (armed : Bool) (now : Nat) :
    ConnSignal → Bool × List MinecraftEvent
  | .spawnSig pos =>
    if armed then (false, [spawnHandlerEvent pos botUsername now]) else (false, [])
  | .loginSig => (armed, [loginHandlerEvent botUsername now])
  | .kickedSig r => (armed, [kickedHandlerEvent botUsername r now])
  | .endSig r => (armed, [endHandlerEvent r now])

/-- Run the connection handlers over a sequence of timestamped raw signals,
threading the once-armed flag. -/
def processConnSignals (botUsername : String) (armed : Bool) :
    List (Nat × ConnSignal) → List MinecraftEvent
  | [] => []
  | (t, s) :: rest =>
    let r := handleConnSignal botUsername armed t s
    r.2 ++ processConnSignals botUsername r.1 rest

/-- Recognizer for spawn signals. -/
def isSpawnSig : ConnSignal → Bool
  | .spawnSig _ => true
  | _ => false

/-- If every filter in a prefix of the chain accepts the event and the next
filter rejects it, the filter loop returns `false`, whatever filters
follow it. -/
theorem runFilters_append_false (fs1 : List (MinecraftEvent → Bool))
    (f : MinecraftEvent → Bool) (fs2 : List (MinecraftEvent → Bool))
    (e : MinecraftEvent) (h1 : ∀ g ∈ fs1, g e = true) (hf : f e = false) :
    runFilters (fs1 ++ f :: fs2) e = false := by
  induction fs1 with
  | nil => simp [runFilters, hf]
  | cons g gs ih =>
    have hg : g e = true := h1 g (by simp)
    simpa [runFilters, hg] using ih (fun x hx => h1 x (by simp [hx]))

/-- C3: for every event and filter-chain state, if a registered filter
rejects the event then `emit` returns with no side effects — the manager
state (history included) is unchanged and no kind-specific or wildcard
listener is invoked — and evaluation short-circuits at the first rejecting
filter (the filters after it, `fs2`, are arbitrary and the result does not
depend on them); consequently an event never seen before remains absent
from the history. -/
theorem filter_rejection_frame (env : ListenerEnv) (st : ManagerState)
    (e : MinecraftEvent) (fs1 : List (MinecraftEvent → Bool))
    (f : MinecraftEvent → Bool) (fs2 : List (MinecraftEvent → Bool))
    (hst : st.filters = fs1 ++ f :: fs2)
    (h1 : ∀ g ∈ fs1, g e = true) (hf : f e = false) :
    emit env st e = ⟨st, [], [], false⟩ ∧
      (e ∉ st.eventHistory → e ∉ (emit env st e).state.eventHistory) := by
  have hrf : runFilters st.filters e = false := by
    rw [hst]; exact runFilters_append_false fs1 f fs2 e h1 hf
  have hemit : emit env st e = ⟨st, [], [], false⟩ := by
    unfold emit; rw [hrf]; rfl
  exact ⟨hemit, fun h => by rw [hemit]; exact h⟩

/-- A filter that rejects every event, used in the witness. -/
def rejectAllFilter : MinecraftEvent → Bool := fun _ => false

/-- A manager whose only filter rejects everything. -/
def stWithRejectFilter : ManagerState :=
  { initialManagerState with filters := [rejectAllFilter] }

/-- Witness for `filter_rejection_frame` at a concrete manager and event. -/
theorem filter_rejection_frame_witness :
    emit [] stWithRejectFilter evA = ⟨stWithRejectFilter, [], [], false⟩ ∧
      (evA ∉ stWithRejectFilter.eventHistory →
        evA ∉ (emit [] stWithRejectFilter evA).state.eventHistory) :=
  filter_rejection_frame [] stWithRejectFilter evA [] rejectAllFilter [] rfl
    (by intro g hg; simp at hg) rfl

/-- C5: the notifier attempts a delivery exactly when it is enabled and the
event is important (kind in the importance set, or severity error or
warning); a disabled notifier is a no-op for every event, before any
formatting; a `chat`/`info` event is notified iff `chat` is in the
importance set; an `error`-severity event is always notified when the
notifier is enabled, regardless of kind membership. -/
theorem notifier_importance_gate :
    (∀ (n : NotifierState) (e : MinecraftEvent),
      (notify n e).isSome =
        (n.enabled && (n.importantEventTypes.contains e.type ||
          e.severity == .error || e.severity == .warning))) ∧
    (∀ (n : NotifierState) (e : MinecraftEvent), n.enabled = false →
      notify n e = none) ∧
    (∀ (n : NotifierState) (ts : Nat) (desc : String) (d : Option EventData),
      n.enabled = true →
      ((notify n ⟨"chat", ts, .info, desc, d⟩).isSome ↔
        "chat" ∈ n.importantEventTypes)) ∧
    (∀ (n : NotifierState) (e : MinecraftEvent), n.enabled = true →
      e.severity = .error → (notify n e).isSome = true) := by
  refine ⟨?_, ?_, ?_, ?_⟩
  · intro n e
    cases hn : n.enabled <;>
      cases hb : n.importantEventTypes.contains e.type <;>
        cases hs : e.severity <;>
          simp_all [notify, List.contains, List.elem_iff]
  · intro n e hn
    simp [notify, hn]
  · intro n ts desc d hn
    cases hb : n.importantEventTypes.contains "chat" <;>
      simp_all [notify, List.contains, List.elem_iff]
  · intro n e hn he
    simp [notify, hn, he]

/-- Witness for `notifier_importance_gate`: the default notifier, disabled
and enabled, at concrete events. -/
theorem notifier_importance_gate_witness :
    notify (setEnabled initialNotifierState false) evA = none ∧
      ((notify initialNotifierState ⟨"chat", 5, .info, "m", none⟩).isSome ↔
        "chat" ∈ initialNotifierState.importantEventTypes) ∧
      (notify initialNotifierState ⟨"weird", 5, .error, "m", none⟩).isSome = true :=
  ⟨notifier_importance_gate.2.1 _ evA rfl,
   notifier_importance_gate.2.2.1 _ 5 "m" none rfl,
   notifier_importance_gate.2.2.2 _ ⟨"weird", 5, .error, "m", none⟩ rfl rfl⟩

/-- C6 counterexample: a whisper whose sender identity equals the bot's own
username still yields one emitted `chat` event — the whisper handler
performs no self-sender check, so the claim fails on whispers. -/
theorem whisper_self_not_suppressed_counterexample :
    whisperHandler "Rackster" "Rackster" "hi" 100 ≠ [] := by
  decide

/-- C6 amended: the `chat` handler suppresses exactly the signals whose
sender equals the bot's own username (zero events) and emits one event
otherwise; the `whisper` handler emits one event for every whisper,
including one whose sender equals the bot's own username. -/
theorem self_message_suppression_amended :
    (∀ (b u m : String) (t : Nat), u = b → chatHandler b u m t = []) ∧
    (∀ (b u m : String) (t : Nat), u ≠ b → (chatHandler b u m t).length = 1) ∧
    (∀ (b u m : String) (t : Nat), (whisperHandler b u m t).length = 1) := by
  refine ⟨?_, ?_, ?_⟩
  · intro b u m t h; subst h; simp [chatHandler]
  · intro b u m t h; simp [chatHandler, h]
  · intro b u m t; simp [whisperHandler]

/-- Witness for `self_message_suppression_amended` at concrete names. -/
theorem self_message_suppression_witness :
    chatHandler "Rackster" "Rackster" "hi" 3 = [] ∧
      (chatHandler "Rackster" "Steve" "hi" 3).length = 1 ∧
      (whisperHandler "Rackster" "Rackster" "hi" 3).length = 1 :=
  ⟨self_message_suppression_amended.1 "Rackster" "Rackster" "hi" 3 rfl,
   self_message_suppression_amended.2.1 "Rackster" "Steve" "hi" 3 (by decide),
   self_message_suppression_amended.2.2 "Rackster" "Rackster" "hi" 3⟩

/-- For a positive limit, `slice(-limit)` keeps exactly the last
`min limit length` entries. -/
theorem jsSliceFrom_neg (xs : List MinecraftEvent) (limit : Int) (h : 1 ≤ limit) :
    jsSliceFrom xs (-limit) = xs.drop (xs.length - limit.toNat) := by
  simp only [jsSliceFrom]
  have hlt : -limit < 0 := by omega
  rw [if_pos hlt]
  congr 1
  omega

/-- A manager holding a single history entry, used in the counterexample. -/
def stOneEvent : ManagerState :=
  { initialManagerState with eventHistory := [evA] }

/-- C8 counterexample: with one entry in the history, `getHistory` with
limit 0 returns that entry — `events.slice(-0)` is `events.slice(0)`, the
whole array — so the result is not trimmed to at most `limit` entries. -/
theorem getHistory_limit_zero_counterexample :
    ¬ (((getHistory stOneEvent none 0).length : Int) ≤ 0) := by
  decide

/-- C8 amended: for every manager state and every limit ≥ 1, `getHistory`
returns the at-most-`limit` most recent entries matching the kind filter
(kind absent, or a non-empty string; the falsy empty string is treated by
the source as an absent kind), in original insertion order — the result is
a suffix of the matching subsequence of the history.  `getHistory` is
embedded as a pure query: it reads the buffer and returns a fresh list
(`filter` and `slice` do not mutate), leaving the state untouched.  For
limit 0 the source returns the entire matching sequence instead. -/
theorem getHistory_amended (st : ManagerState) (limit : Int) (h : 1 ≤ limit) :
    (getHistory st none limit =
        st.eventHistory.drop (st.eventHistory.length - limit.toNat) ∧
      (getHistory st none limit).length =
        min st.eventHistory.length limit.toNat ∧
      getHistory st none limit <:+ st.eventHistory) ∧
    (∀ t : String, t ≠ "" →
      getHistory st (some t) limit =
          (st.eventHistory.filter (fun e => e.type == t)).drop
            ((st.eventHistory.filter (fun e => e.type == t)).length - limit.toNat) ∧
        (getHistory st (some t) limit).length =
          min (st.eventHistory.filter (fun e => e.type == t)).length limit.toNat ∧
        getHistory st (some t) limit <:+
          st.eventHistory.filter (fun e => e.type == t)) := by
  constructor
  · have heq : getHistory st none limit =
        st.eventHistory.drop (st.eventHistory.length - limit.toNat) := by
      simp only [getHistory]
      exact jsSliceFrom_neg st.eventHistory limit h
    refine ⟨heq, ?_, ?_⟩
    · rw [heq, List.length_drop]; omega
    · rw [heq]; exact List.drop_suffix _ _
  · intro t ht
    have hbeq : (t == "") = false := by
      simpa using ht
    have heq : getHistory st (some t) limit =
        (st.eventHistory.filter (fun e => e.type == t)).drop
          ((st.eventHistory.filter (fun e => e.type == t)).length - limit.toNat) := by
      simp only [getHistory, hbeq, Bool.false_eq_true, if_false]
      exact jsSliceFrom_neg _ limit h
    refine ⟨heq, ?_, ?_⟩
    · rw [heq, List.length_drop]; omega
    · rw [heq]; exact List.drop_suffix _ _

/-- A manager holding two history entries, used in the witness. -/
def stTwoEvents : ManagerState :=
  { initialManagerState with eventHistory := [evA, evB] }

/-- Witness for `getHistory_amended` at a concrete state, limit 1. -/
theorem getHistory_amended_witness :
    getHistory stTwoEvents none 1 =
        stTwoEvents.eventHistory.drop
          (stTwoEvents.eventHistory.length - (1 : Int).toNat) ∧
      getHistory stTwoEvents (some "chat") 1 =
        (stTwoEvents.eventHistory.filter (fun e => e.type == "chat")).drop
          ((stTwoEvents.eventHistory.filter (fun e => e.type == "chat")).length -
            (1 : Int).toNat) :=
  ⟨(getHistory_amended stTwoEvents 1 (by decide)).1.1,
   ((getHistory_amended stTwoEvents 1 (by decide)).2 "chat" (by decide)).1⟩

/-- `addToHistory` changes only the history buffer. -/
theorem addToHistory_listeners (st : ManagerState) (e : MinecraftEvent) :
    (addToHistory st e).listeners = st.listeners := by
  simp only [addToHistory]
  split <;> rfl

/-- `addToHistory` leaves the wildcard set untouched. -/
theorem addToHistory_globalListeners (st : ManagerState) (e : MinecraftEvent) :
    (addToHistory st e).globalListeners = st.globalListeners := by
  simp only [addToHistory]
  split <;> rfl

/-- `addToHistory` leaves the filter chain untouched. -/
theorem addToHistory_filters (st : ManagerState) (e : MinecraftEvent) :
    (addToHistory st e).filters = st.filters := by
  simp only [addToHistory]
  split <;> rfl

/-- `addToHistory` leaves the capacity untouched. -/
theorem addToHistory_maxHistorySize (st : ManagerState) (e : MinecraftEvent) :
    (addToHistory st e).maxHistorySize = st.maxHistorySize := by
  simp only [addToHistory]
  split <;> rfl

/-- Reentrant subscription operations touch only the listener registries:
history, filters and capacity are preserved. -/
theorem applySubOp_preserves (st : ManagerState) (op : SubOp) :
    (applySubOp st op).eventHistory = st.eventHistory ∧
    (applySubOp st op).filters = st.filters ∧
    (applySubOp st op).maxHistorySize = st.maxHistorySize := by
  cases op <;>
    simp only [applySubOp, ManagerState.on, ManagerState.off, setTypeListeners] <;>
    (repeat' split) <;> simp

/-- Folding subscription operations preserves history, filters and capacity. -/
theorem foldl_subOps_preserves (ops : List SubOp) :
    ∀ st : ManagerState,
      (ops.foldl applySubOp st).eventHistory = st.eventHistory ∧
      (ops.foldl applySubOp st).filters = st.filters ∧
      (ops.foldl applySubOp st).maxHistorySize = st.maxHistorySize := by
  induction ops with
  | nil => intro st; exact ⟨rfl, rfl, rfl⟩
  | cons op ops ih =>
    intro st
    rcases applySubOp_preserves st op with ⟨a1, a2, a3⟩
    rcases ih (applySubOp st op) with ⟨b1, b2, b3⟩
    refine ⟨?_, ?_, ?_⟩ <;> rw [List.foldl_cons]
    · rw [b1, a1]
    · rw [b2, a2]
    · rw [b3, a3]

/-- The fan-out loop, for any environment, preserves history, filters and
capacity (listeners can only resubscribe or unsubscribe). -/
theorem fanoutLoop_preserves (env : ListenerEnv) (getSet : ManagerState → List Nat) :
    ∀ (fuel : Nat) (st : ManagerState) (visited : List Nat),
      (fanoutLoop env getSet fuel st visited).1.eventHistory = st.eventHistory ∧
      (fanoutLoop env getSet fuel st visited).1.filters = st.filters ∧
      (fanoutLoop env getSet fuel st visited).1.maxHistorySize = st.maxHistorySize := by
  intro fuel
  induction fuel with
  | zero => intro st visited; exact ⟨rfl, rfl, rfl⟩
  | succ fuel ih =>
    intro st visited
    rcases hfind : (getSet st).find? (fun l => !decide (l ∈ visited)) with _ | l
    · simp [fanoutLoop, hfind]
    · simp only [fanoutLoop, hfind]
      rcases ih (invokeListener env st l).1 (visited ++ [l]) with ⟨b1, b2, b3⟩
      have h1 := foldl_subOps_preserves (lookupBehavior env l).ops st
      exact ⟨b1.trans h1.1, b2.trans h1.2.1, b3.trans h1.2.2⟩

/-- In an environment table whose behaviours perform no subscription
operations, every lookup yields an empty operation list. -/
theorem lookupBehavior_ops_nil (env : ListenerEnv)
    (h : ∀ p ∈ env, p.2.ops = []) (l : Nat) :
    (lookupBehavior env l).ops = [] := by
  rcases hf : env.find? (fun p => p.1 == l) with _ | p
  · simp [lookupBehavior, hf]
  · have := h p (List.mem_of_find?_eq_some hf)
    simp [lookupBehavior, hf, this]

/-- Invoking an operation-free listener leaves the manager state unchanged. -/
theorem invokeListener_state_no_ops (env : ListenerEnv)
    (h : ∀ p ∈ env, p.2.ops = []) (st : ManagerState) (l : Nat) :
    (invokeListener env st l).1 = st := by
  simp only [invokeListener]
  rw [lookupBehavior_ops_nil env h l]
  rfl

/-- With an operation-free environment the fan-out loop never changes the
manager state. -/
theorem fanoutLoop_state_no_ops (env : ListenerEnv)
    (getSet : ManagerState → List Nat) (h : ∀ p ∈ env, p.2.ops = []) :
    ∀ (fuel : Nat) (st : ManagerState) (visited : List Nat),
      (fanoutLoop env getSet fuel st visited).1 = st := by
  intro fuel
  induction fuel with
  | zero => intro st visited; rfl
  | succ fuel ih =>
    intro st visited
    rcases hfind : (getSet st).find? (fun l => !decide (l ∈ visited)) with _ | l
    · simp [fanoutLoop, hfind]
    · simp only [fanoutLoop, hfind]
      rw [invokeListener_state_no_ops env h st l]
      exact ih st (visited ++ [l])

/-- With an operation-free environment and enough fuel, the loop started on
a visited prefix visits exactly the remaining elements of the (unchanging)
set, in order. -/
theorem fanoutLoop_no_ops_visits (env : ListenerEnv)
    (getSet : ManagerState → List Nat) (h : ∀ p ∈ env, p.2.ops = []) :
    ∀ (rest visited : List Nat) (fuel : Nat) (st : ManagerState),
      getSet st = visited ++ rest →
      (visited ++ rest).Nodup →
      rest.length ≤ fuel →
      fanoutLoop env getSet fuel st visited = (st, visited ++ rest) := by
  intro rest
  induction rest with
  | nil =>
    intro visited fuel st hget hnd hlen
    cases fuel with
    | zero => simp [fanoutLoop]
    | succ fuel =>
      have hfind : (getSet st).find? (fun l => !decide (l ∈ visited)) = none := by
        rw [hget]
        apply List.find?_eq_none.mpr
        intro x hx
        simp only [List.append_nil] at hx
        simp [hx]
      simp [fanoutLoop, hfind]
  | cons r rest ih =>
    intro visited fuel st hget hnd hlen
    cases fuel with
    | zero => simp at hlen
    | succ fuel =>
      have hrnotv : r ∉ visited := by
        rw [List.nodup_append] at hnd
        exact fun hr => hnd.2.2 hr (by simp)
      have hfind : (getSet st).find? (fun l => !decide (l ∈ visited)) = some r := by
        rw [hget, List.find?_append]
        have h1 : visited.find? (fun l => !decide (l ∈ visited)) = none := by
          apply List.find?_eq_none.mpr
          intro x hx
          simp [hx]
        rw [h1]
        simp [List.find?_cons, hrnotv]
      simp only [fanoutLoop, hfind]
      rw [invokeListener_state_no_ops env h st r]
      have hstep := ih (visited ++ [r]) fuel st
        (by rw [hget]; simp) (by simpa using hnd) (by simp at hlen; omega)
      rw [hstep]
      simp

/-- Unfolding of an accepted `emit` call. -/
theorem emit_accepted_eq (env : ListenerEnv) (st : ManagerState)
    (e : MinecraftEvent) (hacc : runFilters st.filters e = true) :
    emit env st e =
      (let st1 := addToHistory st e
       let fuel := st1.globalListeners.length + (getTypeListeners st1 e.type).length +
         envOpsCount env + 1
       let typed :=
         if (st1.listeners.find? (fun p => p.1 == e.type)).isSome then
           fanoutLoop env (fun s => getTypeListeners s e.type) fuel st1 []
         else (st1, [])
       let wild := fanoutLoop env (fun s => s.globalListeners) fuel typed.1 []
       ⟨wild.1, typed.2, wild.2, true⟩) := by
  unfold emit
  rw [hacc]
  rfl

/-- With an operation-free environment, an accepted emission's kind-specific
fan-out invokes exactly the listeners registered for the event's kind at
acceptance time, in order. -/
theorem emit_no_ops_typed (env : ListenerEnv) (st : ManagerState)
    (e : MinecraftEvent) (hops : ∀ p ∈ env, p.2.ops = [])
    (hndT : (getTypeListeners st e.type).Nodup)
    (hacc : runFilters st.filters e = true) :
    (emit env st e).typedInvoked = getTypeListeners st e.type := by
  have hget : getTypeListeners (addToHistory st e) e.type = getTypeListeners st e.type := by
    simp only [getTypeListeners, addToHistory_listeners]
  simp only [emit_accepted_eq env st e hacc]
  cases hty : ((addToHistory st e).listeners.find? (fun p => p.1 == e.type)).isSome
  · rw [if_neg (by simp [hty])]
    have hempty : getTypeListeners st e.type = [] := by
      rcases hf : st.listeners.find? (fun p => p.1 == e.type) with _ | p
      · simp [getTypeListeners, hf]
      · exfalso
        rw [addToHistory_listeners, hf] at hty
        simp at hty
    simp [hempty]
  · rw [if_pos rfl]
    have hvisit := fanoutLoop_no_ops_visits env (fun s => getTypeListeners s e.type) hops
      (getTypeListeners (addToHistory st e) e.type) []
      ((addToHistory st e).globalListeners.length +
        (getTypeListeners (addToHistory st e) e.type).length + envOpsCount env + 1)
      (addToHistory st e) (by simp) (by simpa [hget] using hndT) (by omega)
    rw [hvisit]
    simp [hget]

/-- With an operation-free environment, an accepted emission's wildcard
fan-out invokes exactly the wildcard listeners subscribed at acceptance
time, in order. -/
theorem emit_no_ops_wildcard (env : ListenerEnv) (st : ManagerState)
    (e : MinecraftEvent) (hops : ∀ p ∈ env, p.2.ops = [])
    (hndG : st.globalListeners.Nodup)
    (hacc : runFilters st.filters e = true) :
    (emit env st e).wildcardInvoked = st.globalListeners := by
  have hglob : (addToHistory st e).globalListeners = st.globalListeners :=
    addToHistory_globalListeners st e
  simp only [emit_accepted_eq env st e hacc]
  cases hty : ((addToHistory st e).listeners.find? (fun p => p.1 == e.type)).isSome
  · rw [if_neg (by simp [hty])]
    have hvisit := fanoutLoop_no_ops_visits env (fun s => s.globalListeners) hops
      (addToHistory st e).globalListeners []
      ((addToHistory st e).globalListeners.length +
        (getTypeListeners (addToHistory st e) e.type).length + envOpsCount env + 1)
      (addToHistory st e) (by simp) (by simpa [hglob] using hndG) (by omega)
    rw [hvisit]
    simp [hglob]
  · rw [if_pos rfl]
    rw [fanoutLoop_state_no_ops env (fun s => getTypeListeners s e.type) hops _ _ _]
    have hvisit := fanoutLoop_no_ops_visits env (fun s => s.globalListeners) hops
      (addToHistory st e).globalListeners []
      ((addToHistory st e).globalListeners.length +
        (getTypeListeners (addToHistory st e) e.type).length + envOpsCount env + 1)
      (addToHistory st e) (by simp) (by simpa [hglob] using hndG) (by omega)
    rw [hvisit]
    simp [hglob]

/-- An environment in which listener 0 unsubscribes listener 1 from the
wildcard set during its own invocation. -/
def envUnsub : ListenerEnv := [(0, ⟨[SubOp.unsubscribe "*" 1], false⟩)]

/-- A manager with two wildcard listeners, ids 0 and 1, in that order. -/
def stTwoWildcards : ManagerState :=
  { initialManagerState with globalListeners := [0, 1] }

/-- C2 counterexample: listener 1 is wildcard-subscribed at the moment the
event is accepted, yet it is never invoked for that emission, because
listener 0 unsubscribes it mid-fan-out — the source iterates the live set,
not a snapshot taken before iteration. -/
theorem wildcard_snapshot_counterexample :
    (1 ∈ stTwoWildcards.globalListeners ∧
        runFilters stTwoWildcards.filters evA = true) ∧
      1 ∉ (emit envUnsub stTwoWildcards evA).wildcardInvoked := by
  decide

/-- C2 amended: for every accepted event, the wildcard fan-out iterates the
live wildcard set rather than a snapshot.  Provided no listener performs
subscription changes during its invocation, every wildcard listener
subscribed at the moment of acceptance is invoked exactly once, in order,
regardless of the event's kind; without that proviso a listener can
unsubscribe a not-yet-invoked wildcard listener and thereby change which
listeners are invoked for the in-progress emission. -/
theorem wildcard_completeness_amended (env : ListenerEnv) (st : ManagerState)
    (e : MinecraftEvent) (hops : ∀ p ∈ env, p.2.ops = [])
    (hndG : st.globalListeners.Nodup)
    (hacc : runFilters st.filters e = true) :
    (emit env st e).wildcardInvoked = st.globalListeners ∧
      ∀ l ∈ st.globalListeners, (emit env st e).wildcardInvoked.count l = 1 := by
  have h1 := emit_no_ops_wildcard env st e hops hndG hacc
  refine ⟨h1, fun l hl => ?_⟩
  rw [h1]
  exact List.count_eq_one_of_mem hndG hl

/-- An operation-free environment (one listener even throws, which cannot
change the fan-out) used in the witness. -/
def envBenign : ListenerEnv := [(0, ⟨[], true⟩), (1, ⟨[], false⟩)]

/-- Witness for `wildcard_completeness_amended` at a concrete manager. -/
theorem wildcard_completeness_amended_witness :
    (emit envBenign stTwoWildcards evB).wildcardInvoked =
        stTwoWildcards.globalListeners ∧
      (emit envBenign stTwoWildcards evB).wildcardInvoked.count 1 = 1 :=
  ⟨(wildcard_completeness_amended envBenign stTwoWildcards evB (by decide)
      (by decide) rfl).1,
   (wildcard_completeness_amended envBenign stTwoWildcards evB (by decide)
      (by decide) rfl).2 1 (by decide)⟩

/-- Replace every behaviour's thrown-exception flag with `false`. -/
def stripThrows (env : ListenerEnv) : ListenerEnv :=
  env.map (fun p => (p.1, ⟨p.2.ops, false⟩))

/-- Stripping throw flags does not change the operations a lookup yields. -/
theorem lookupBehavior_stripThrows_ops (env : ListenerEnv) (l : Nat) :
    (lookupBehavior (stripThrows env) l).ops = (lookupBehavior env l).ops := by
  unfold lookupBehavior stripThrows
  rw [List.find?_map]
  simp only [Function.comp_def]
  rcases hf : env.find? (fun p => p.1 == l) with _ | p <;> simp [hf]

/-- Stripping throw flags does not change the state effect of invoking a
listener. -/
theorem invokeListener_stripThrows_state (env : ListenerEnv)
    (st : ManagerState) (l : Nat) :
    (invokeListener (stripThrows env) st l).1 = (invokeListener env st l).1 := by
  simp only [invokeListener]
  rw [lookupBehavior_stripThrows_ops]

/-- Stripping throw flags does not change the fan-out loop at all. -/
theorem fanoutLoop_stripThrows (env : ListenerEnv)
    (getSet : ManagerState → List Nat) :
    ∀ (fuel : Nat) (st : ManagerState) (visited : List Nat),
      fanoutLoop (stripThrows env) getSet fuel st visited =
        fanoutLoop env getSet fuel st visited := by
  intro fuel
  induction fuel with
  | zero => intro st visited; rfl
  | succ fuel ih =>
    intro st visited
    rcases hfind : (getSet st).find? (fun l => !decide (l ∈ visited)) with _ | l <;>
      simp only [fanoutLoop, hfind]
    rw [invokeListener_stripThrows_state]
    exact ih (invokeListener env st l).1 (visited ++ [l])

/-- Stripping throw flags does not change the operation count. -/
theorem envOpsCount_stripThrows (env : ListenerEnv) :
    envOpsCount (stripThrows env) = envOpsCount env := by
  simp [envOpsCount, stripThrows, List.map_map, Function.comp_def]

/-- Stripping throw flags does not change the outcome of `emit`. -/
theorem emit_stripThrows (env : ListenerEnv) (st : ManagerState)
    (e : MinecraftEvent) :
    emit (stripThrows env) st e = emit env st e := by
  simp only [emit, envOpsCount_stripThrows, fanoutLoop_stripThrows]

/-- C4: exceptions thrown by listeners during fan-out are caught per
listener.  First, the entire outcome of `emit` — final state and both
invocation logs — coincides with that of the environment whose listeners
never throw: a throw neither escapes `emit` to the caller nor changes the
fan-out.  Second, with mutation-free listeners and arbitrary throw flags,
every kind-specific listener registered for the event's kind and every
wildcard listener subscribed at acceptance is invoked with the emitted
event (its id appears in the corresponding invocation log), so a throwing
listener does not prevent any remaining listener from running. -/
theorem listener_exception_isolation :
    (∀ (env : ListenerEnv) (st : ManagerState) (e : MinecraftEvent),
      emit (stripThrows env) st e = emit env st e) ∧
    (∀ (env : ListenerEnv) (st : ManagerState) (e : MinecraftEvent),
      (∀ p ∈ env, p.2.ops = []) →
      (getTypeListeners st e.type).Nodup →
      st.globalListeners.Nodup →
      runFilters st.filters e = true →
      (emit env st e).typedInvoked = getTypeListeners st e.type ∧
        (emit env st e).wildcardInvoked = st.globalListeners) := by
  constructor
  · intro env st e
    exact emit_stripThrows env st e
  · intro env st e hops hndT hndG hacc
    exact ⟨emit_no_ops_typed env st e hops hndT hacc,
      emit_no_ops_wildcard env st e hops hndG hacc⟩

/-- Two kind-specific listeners for `chat` and one wildcard listener. -/
def stTypedPair : ManagerState :=
  { initialManagerState with listeners := [("chat", [0, 1])], globalListeners := [2] }

/-- Listener 0 throws when invoked. -/
def envThrower : ListenerEnv := [(0, ⟨[], true⟩)]

/-- Witness for `listener_exception_isolation`: with listener 0 throwing,
both `chat` listeners and the wildcard listener are still invoked, and the
outcome equals the never-throwing run. -/
theorem listener_exception_isolation_witness :
    emit (stripThrows envThrower) stTypedPair evA = emit envThrower stTypedPair evA ∧
      ((emit envThrower stTypedPair evA).typedInvoked =
          getTypeListeners stTypedPair "chat" ∧
        (emit envThrower stTypedPair evA).wildcardInvoked =
          stTypedPair.globalListeners) :=
  ⟨listener_exception_isolation.1 envThrower stTypedPair evA,
   listener_exception_isolation.2 envThrower stTypedPair evA (by decide)
     (by decide) (by decide) rfl⟩

/-- Fold a sequence of `emit` calls over the manager state. -/
def emitAll (env : ListenerEnv) (st : ManagerState) : List MinecraftEvent → ManagerState
  | [] => st
  | e :: es => emitAll env (emit env st e).state es

/-- The state an accepted `emit` leaves behind: the history of
`addToHistory`, and the filters and capacity of the input state (the
fan-out can only touch the listener registries). -/
theorem emit_accepted_state (env : ListenerEnv) (st : ManagerState)
    (e : MinecraftEvent) (hacc : runFilters st.filters e = true) :
    (emit env st e).state.eventHistory = (addToHistory st e).eventHistory ∧
    (emit env st e).state.filters = st.filters ∧
    (emit env st e).state.maxHistorySize = st.maxHistorySize := by
  simp only [emit_accepted_eq env st e hacc]
  cases hty : ((addToHistory st e).listeners.find? (fun p => p.1 == e.type)).isSome
  · rw [if_neg (by simp [hty])]
    refine ⟨?_, ?_, ?_⟩
    · exact (fanoutLoop_preserves env _ _ _ _).1
    · exact ((fanoutLoop_preserves env _ _ _ _).2.1).trans (addToHistory_filters st e)
    · exact ((fanoutLoop_preserves env _ _ _ _).2.2).trans (addToHistory_maxHistorySize st e)
  · rw [if_pos rfl]
    refine ⟨?_, ?_, ?_⟩
    · exact ((fanoutLoop_preserves env _ _ _ _).1).trans
        (fanoutLoop_preserves env _ _ _ _).1
    · exact ((fanoutLoop_preserves env _ _ _ _).2.1).trans
        (((fanoutLoop_preserves env _ _ _ _).2.1).trans (addToHistory_filters st e))
    · exact ((fanoutLoop_preserves env _ _ _ _).2.2).trans
        (((fanoutLoop_preserves env _ _ _ _).2.2).trans (addToHistory_maxHistorySize st e))

/-- Below-or-at-capacity characterization of one insertion: push the event,
then trim the front by one exactly when the capacity was already full. -/
theorem addToHistory_eventHistory_le (st : ManagerState) (e : MinecraftEvent)
    (h : st.eventHistory.length ≤ st.maxHistorySize) :
    (addToHistory st e).eventHistory =
      (st.eventHistory ++ [e]).drop
        ((st.eventHistory.length + 1) - st.maxHistorySize) := by
  simp only [addToHistory]
  split
  · next hgt =>
    have hlen : st.eventHistory.length + 1 - st.maxHistorySize = 1 := by
      rw [List.length_append] at hgt
      simp at hgt
      omega
    rw [hlen, ← List.drop_one]
  · next hle =>
    have hlen : st.eventHistory.length + 1 - st.maxHistorySize = 0 := by
      rw [List.length_append] at hle
      simp at hle
      omega
    rw [hlen, List.drop_zero]

/-- With no filters and a capacity at least the current length, a sequence
of emissions keeps the history equal to the capacity-bounded suffix of
everything ever inserted, and preserves capacity and filters. -/
theorem emitAll_eventHistory (env : ListenerEnv) :
    ∀ (es : List MinecraftEvent) (st : ManagerState),
      st.filters = [] →
      st.eventHistory.length ≤ st.maxHistorySize →
      (emitAll env st es).eventHistory =
          (st.eventHistory ++ es).drop
            ((st.eventHistory.length + es.length) - st.maxHistorySize) ∧
        (emitAll env st es).maxHistorySize = st.maxHistorySize := by
  intro es
  induction es with
  | nil =>
    intro st hf hle
    refine ⟨?_, rfl⟩
    have hz : st.eventHistory.length + ([] : List MinecraftEvent).length -
        st.maxHistorySize = 0 := by simp; omega
    rw [List.append_nil, hz, List.drop_zero]
    rfl
  | cons e es ih =>
    intro st hf hle
    have hacc : runFilters st.filters e = true := by rw [hf]; rfl
    rcases emit_accepted_state env st e hacc with ⟨s1, s2, s3⟩
    have hhist1 : (emit env st e).state.eventHistory =
        (st.eventHistory ++ [e]).drop
          ((st.eventHistory.length + 1) - st.maxHistorySize) :=
      s1.trans (addToHistory_eventHistory_le st e hle)
    have hfil1 : (emit env st e).state.filters = [] := s2.trans hf
    have hlen1 : (emit env st e).state.eventHistory.length ≤
        (emit env st e).state.maxHistorySize := by
      rw [hhist1, s3, List.length_drop, List.length_append]
      simp
      omega
    rcases ih (emit env st e).state hfil1 hlen1 with ⟨i1, i2⟩
    have hdle : (st.eventHistory.length + 1) - st.maxHistorySize ≤
        (st.eventHistory ++ [e]).length := by
      rw [List.length_append]; simp
    have key : (st.eventHistory ++ [e]).drop
          ((st.eventHistory.length + 1) - st.maxHistorySize) ++ es =
        ((st.eventHistory ++ [e]) ++ es).drop
          ((st.eventHistory.length + 1) - st.maxHistorySize) :=
      (List.drop_append_of_le_length hdle).symm
    constructor
    · show (emitAll env (emit env st e).state es).eventHistory = _
      rw [i1, hhist1, s3, List.length_drop, List.length_append, key, List.drop_drop]
      have hassoc : (st.eventHistory ++ [e]) ++ es = st.eventHistory ++ e :: es := by
        simp
      rw [hassoc]
      congr 1
      simp
      omega
    · show (emitAll env (emit env st e).state es).maxHistorySize = _
      rw [i2, s3]

/-- `slice(-L)` of a list no longer than `L` is the whole list. -/
theorem jsSliceFrom_length_le (xs : List MinecraftEvent) (L : Nat)
    (h : xs.length ≤ L) :
    jsSliceFrom xs (-(L : Int)) = xs := by
  simp only [jsSliceFrom]
  have hz : (if (-(L : Int)) < 0 then
      max ((xs.length : Int) + -(L : Int)) 0
    else min (-(L : Int)) (xs.length : Int)).toNat = 0 := by
    split <;> omega
  rw [hz, List.drop_zero]

/-- C1 counterexample: emit two events at the default capacity 1000, then
shrink the capacity to 1 via `setMaxHistorySize`: the buffer keeps both
entries, so the bound `length ≤ N` fails immediately after shrinking. -/
theorem history_bound_counterexample :
    ¬ ((setMaxHistorySize (emit [] (emit [] initialManagerState evA).state evB).state
          1).eventHistory.length ≤
        (setMaxHistorySize (emit [] (emit [] initialManagerState evA).state evB).state
          1).maxHistorySize) := by
  decide

/-- C1 amended: with a fixed capacity the ring-buffer behaviour holds: an
insertion below capacity appends; an insertion at (or above) capacity
appends and evicts exactly the oldest entry, keeping the length constant —
so the bound `length ≤ N` is preserved by every insertion, and from an
empty history with capacity `C`, after emitting a sequence `es` of accepted
events the history is exactly the last `min |es| C` of them, in original
order, and `getHistory(limit = |es|)` returns exactly those.  However
`setMaxHistorySize` does not trim: after shrinking the capacity below the
current length the bound is violated and the length stays at its pre-shrink
value (each further insertion evicts exactly one entry). -/
theorem history_bound_amended :
    (∀ (st : ManagerState) (e : MinecraftEvent),
      st.eventHistory.length ≤ st.maxHistorySize →
      (addToHistory st e).eventHistory.length ≤ st.maxHistorySize) ∧
    (∀ (st : ManagerState) (e : MinecraftEvent),
      st.maxHistorySize ≤ st.eventHistory.length →
      (addToHistory st e).eventHistory = (st.eventHistory ++ [e]).tail ∧
        (addToHistory st e).eventHistory.length = st.eventHistory.length) ∧
    (∀ (st : ManagerState) (e : MinecraftEvent),
      st.eventHistory.length < st.maxHistorySize →
      (addToHistory st e).eventHistory = st.eventHistory ++ [e]) ∧
    (∀ (env : ListenerEnv) (C : Nat) (es : List MinecraftEvent),
      (emitAll env { initialManagerState with maxHistorySize := C } es).eventHistory
          = es.drop (es.length - C) ∧
        getHistory (emitAll env { initialManagerState with maxHistorySize := C } es)
            none (es.length : Int) = es.drop (es.length - C) ∧
        (es.drop (es.length - C)).length = min es.length C) := by
  refine ⟨?_, ?_, ?_, ?_⟩
  · intro st e h
    rw [addToHistory_eventHistory_le st e h, List.length_drop, List.length_append]
    simp
    omega
  · intro st e h
    have hgt : (st.eventHistory ++ [e]).length > st.maxHistorySize := by
      rw [List.length_append]; simp; omega
    constructor
    · simp only [addToHistory]
      rw [if_pos hgt]
    · simp only [addToHistory]
      rw [if_pos hgt, ← List.drop_one, List.length_drop, List.length_append]
      simp
  · intro st e h
    have hle : ¬ ((st.eventHistory ++ [e]).length > st.maxHistorySize) := by
      rw [List.length_append]; simp; omega
    simp only [addToHistory]
    rw [if_neg hle]
  · intro env C es
    have base := emitAll_eventHistory env es
      { initialManagerState with maxHistorySize := C } rfl (by simp [initialManagerState])
    rcases base with ⟨b1, _⟩
    have hhist : (emitAll env { initialManagerState with maxHistorySize := C } es).eventHistory
        = es.drop (es.length - C) := by
      rw [b1]
      simp [initialManagerState]
    refine ⟨hhist, ?_, ?_⟩
    · simp only [getHistory]
      rw [jsSliceFrom_length_le _ es.length
        (by rw [hhist, List.length_drop]; omega)]
      exact hhist
    · rw [List.length_drop]
      omega

/-- A full one-slot manager used in the witness. -/
def stOneMax : ManagerState :=
  { initialManagerState with eventHistory := [evA], maxHistorySize := 1 }

/-- Witness for `history_bound_amended` at concrete states and sequences. -/
theorem history_bound_amended_witness :
    ((addToHistory initialManagerState evA).eventHistory.length ≤
        initialManagerState.maxHistorySize) ∧
      ((addToHistory stOneMax evB).eventHistory =
        (stOneMax.eventHistory ++ [evB]).tail) ∧
      ((addToHistory initialManagerState evA).eventHistory =
        initialManagerState.eventHistory ++ [evA]) ∧
      ((emitAll [] { initialManagerState with maxHistorySize := 1 }
          [evA, evB]).eventHistory = [evA, evB].drop ([evA, evB].length - 1)) :=
  ⟨history_bound_amended.1 initialManagerState evA (by decide),
   (history_bound_amended.2.1 stOneMax evB (by decide)).1,
   history_bound_amended.2.2.1 initialManagerState evA (by decide),
   (history_bound_amended.2.2.2 [] 1 [evA, evB]).1⟩

/-- From a tracked closure state, the move handler emits exactly per the
spec's 500 ms rule, provided every signal carries a position (`lastMoveTime`
then always equals the time of the last emitted movement event). -/
theorem processMoves_spec (sigs : List (Nat × Option Vec3 × Option Bool)) :
    ∀ last : Nat,
      (∀ s ∈ sigs, (s.2.1).isSome = true) →
      (processMoves ⟨last⟩ sigs).2.map (fun e => e.timestamp) =
        specMovementTimes (some last) (sigs.map (fun s => s.1)) := by
  induction sigs with
  | nil => intro last _; rfl
  | cons s sigs ih =>
    intro last hpos
    obtain ⟨t, p, g⟩ := s
    obtain ⟨v, hv⟩ : ∃ v, p = some v := by
      have hp := hpos (t, p, g) (by simp)
      cases p
      · simp at hp
      · exact ⟨_, rfl⟩
    subst hv
    have hrest : ∀ s ∈ sigs, (s.2.1).isSome = true :=
      fun s hs => hpos s (by simp [hs])
    by_cases hlt : t - last < 500
    · have hm : moveHandler ⟨last⟩ t (some v) g = (⟨last⟩, []) := by
        simp [moveHandler, hlt]
      simp only [processMoves, hm, List.nil_append, List.map_cons]
      rw [ih last hrest]
      simp only [specMovementTimes]
      rw [if_pos hlt]
    · have hm : moveHandler ⟨last⟩ t (some v) g =
          (⟨t⟩, [⟨"move", t, .info, "机器人移动",
            some { position := some (floorVec v), onGround := g }⟩]) := by
        simp [moveHandler, hlt]
      simp only [processMoves, hm, List.map_cons, List.cons_append, List.nil_append,
        List.map_append]
      rw [ih t hrest]
      simp only [specMovementTimes, List.map_cons]
      rw [if_neg hlt]

/-- The spec rule spaces chronologically consecutive emissions by at least
500 ms. -/
theorem specMovementTimes_chain (ts : List Nat) :
    ∀ last : Nat, List.Chain (fun a b => a + 500 ≤ b) last
      (specMovementTimes (some last) ts) := by
  induction ts with
  | nil => intro last; exact List.Chain.nil
  | cons t ts ih =>
    intro last
    by_cases hlt : t - last < 500
    · simp only [specMovementTimes]
      rw [if_pos hlt]
      exact ih last
    · simp only [specMovementTimes]
      rw [if_neg hlt]
      exact List.Chain.cons (by omega) (ih t)

/-- C7: for every sequence of movement raw signals carrying positions and
arriving at real-clock times (at least 500 — `Date.now()` values; the
handler closure initializes `lastMoveTime = 0`), the emitted movement
events are exactly those selected by the spec rule `specMovementTimes`:
a signal is emitted iff at least 500 ms have elapsed since the last
emitted movement event (the first signal is emitted), in-window signals
are dropped (not queued, not merged), and consecutive emissions are at
least 500 ms apart; in particular signals at B, B+100, B+200, B+600
produce exactly the two events stamped B and B+600. -/
theorem movement_rate_limit :
    (∀ (sigs : List (Nat × Option Vec3 × Option Bool)),
      (∀ s ∈ sigs, (s.2.1).isSome = true) →
      (∀ s ∈ sigs, 500 ≤ s.1) →
      (processMoves ⟨0⟩ sigs).2.map (fun e => e.timestamp) =
          specMovementTimes none (sigs.map (fun s => s.1)) ∧
        List.Chain' (fun a b => a + 500 ≤ b)
          ((processMoves ⟨0⟩ sigs).2.map (fun e => e.timestamp))) ∧
    (∀ (B : Nat) (p : Vec3) (g : Option Bool), 500 ≤ B →
      (processMoves ⟨0⟩ [(B, some p, g), (B + 100, some p, g),
          (B + 200, some p, g), (B + 600, some p, g)]).2.map
            (fun e => e.timestamp) = [B, B + 600]) := by
  constructor
  · intro sigs hpos htimes
    cases sigs with
    | nil => exact ⟨rfl, trivial⟩
    | cons s sigs =>
      obtain ⟨t, p, g⟩ := s
      obtain ⟨v, hv⟩ : ∃ v, p = some v := by
        have hp := hpos (t, p, g) (by simp)
        cases p
        · simp at hp
        · exact ⟨_, rfl⟩
      subst hv
      have ht : 500 ≤ t := htimes (t, some v, g) (by simp)
      have hm : moveHandler ⟨0⟩ t (some v) g =
          (⟨t⟩, [⟨"move", t, .info, "机器人移动",
            some { position := some (floorVec v), onGround := g }⟩]) := by
        simp [moveHandler, ht]
      have hrest : ∀ s ∈ sigs, (s.2.1).isSome = true :=
        fun s hs => hpos s (by simp [hs])
      have hspec := processMoves_spec sigs t hrest
      constructor
      · simp only [processMoves, hm, List.cons_append, List.nil_append, List.map_cons,
          List.map_append]
        rw [hspec]
        simp only [specMovementTimes, List.map_cons]
      · simp only [processMoves, hm, List.cons_append, List.nil_append, List.map_cons,
          List.map_append]
        rw [hspec]
        exact specMovementTimes_chain (sigs.map (fun s => s.1)) t
  · intro B p g hB
    have h1 : moveHandler ⟨0⟩ B (some p) g =
        (⟨B⟩, [⟨"move", B, .info, "机器人移动",
          some { position := some (floorVec p), onGround := g }⟩]) := by
      simp [moveHandler, hB]
    have h2 : moveHandler ⟨B⟩ (B + 100) (some p) g = (⟨B⟩, []) := by
      simp [moveHandler]
    have h3 : moveHandler ⟨B⟩ (B + 200) (some p) g = (⟨B⟩, []) := by
      simp [moveHandler]
    have h4 : moveHandler ⟨B⟩ (B + 600) (some p) g =
        (⟨B + 600⟩, [⟨"move", B + 600, .info, "机器人移动",
          some { position := some (floorVec p), onGround := g }⟩]) := by
      simp [moveHandler]
    simp [processMoves, h1, h2, h3, h4]

/-- Witness for `movement_rate_limit`: a concrete base time 1000 and the
four-signal scenario. -/
theorem movement_rate_limit_witness :
    ((processMoves ⟨0⟩ [((1000 : Nat), some (⟨1, 2, 3⟩ : Vec3), some true)]).2.map
        (fun e => e.timestamp) =
      specMovementTimes none
        ([((1000 : Nat), some (⟨1, 2, 3⟩ : Vec3), some true)].map (fun s => s.1))) ∧
      ((processMoves ⟨0⟩ [((1000 : Nat), some (⟨1, 2, 3⟩ : Vec3), some true),
          (1100, some ⟨1, 2, 3⟩, some true), (1200, some ⟨1, 2, 3⟩, some true),
          (1600, some ⟨1, 2, 3⟩, some true)]).2.map (fun e => e.timestamp) =
        [1000, 1600]) := by
  constructor
  · exact (movement_rate_limit.1 _ (by decide) (by decide)).1
  · have h := movement_rate_limit.2 1000 ⟨1, 2, 3⟩ (some true) (by decide)
    simpa using h

/-- The position carried by an event's payload, when any. -/
def eventPosition (e : MinecraftEvent) : Option Vec3 :=
  e.data.bind (fun d => d.position)

/-- The health field carried by an event's payload, when any. -/
def eventHealth (e : MinecraftEvent) : Option ℚ :=
  e.data.bind (fun d => d.health)

/-- The rational 3/2, built with literal numerator and denominator so that
it reduces in the kernel. -/
def threeHalves : ℚ := ⟨3, 2, by norm_num, by norm_num⟩

/-- A new block whose raw coordinates are not integers. -/
def halfBlock : Block := ⟨"stone", 1, ⟨threeHalves, 0, 0⟩⟩

/-- The replaced block at the same raw position. -/
def airBlock : Block := ⟨"air", 0, ⟨threeHalves, 0, 0⟩⟩

/-- C9 counterexample: the `blockUpdate` handler embeds the new block's raw
position without `Math.floor`: the emitted `block_update` event carries the
non-integer coordinate 3/2, so positions are not truncated consistently
across all position-carrying kinds. -/
theorem block_position_not_truncated_counterexample :
    ((blockUpdateHandler (some airBlock) halfBlock 7).map eventPosition =
        [some ⟨threeHalves, 0, 0⟩]) ∧
      ¬ isIntVec ⟨threeHalves, 0, 0⟩ := by
  decide

/-- C9 amended: position coordinates are floored componentwise (hence
integer-valued) in the spawn, entity (hurt/death/spawn), item-drop, death,
respawn and movement handlers; the block handlers (`blockUpdate`,
`blockBreakProgressObserved`) embed the raw block position unchanged; and
health fields are embedded unchanged, never truncated. -/
theorem numeric_truncation_amended :
    (∀ p : Vec3, isIntVec (floorVec p)) ∧
    (∀ (p : Option Vec3) (u : String) (t : Nat),
      eventPosition (spawnHandlerEvent p u t) = p.map floorVec) ∧
    (∀ (ent : EntityInfo) (t : Nat),
      eventPosition (entityHurtHandlerEvent ent t) = ent.position.map floorVec ∧
        eventHealth (entityHurtHandlerEvent ent t) = ent.health) ∧
    (∀ (ent : EntityInfo) (t : Nat),
      eventPosition (entityDeadHandlerEvent ent t) = ent.position.map floorVec ∧
        eventPosition (entitySpawnHandlerEvent ent t) = ent.position.map floorVec) ∧
    (∀ (i : String) (p : Option Vec3) (t : Nat),
      eventPosition (itemDropHandlerEvent i p t) = p.map floorVec) ∧
    (∀ (p : Option Vec3) (t : Nat),
      eventPosition (deathHandlerEvent p t) = p.map floorVec ∧
        eventPosition (respawnHandlerEvent p t) = p.map floorVec) ∧
    (∀ (st : MoveState) (now : Nat) (p : Vec3) (g : Option Bool)
        (ev : MinecraftEvent), ev ∈ (moveHandler st now (some p) g).2 →
      eventPosition ev = some (floorVec p)) ∧
    (∀ (ob : Option Block) (nb : Block) (t : Nat) (ev : MinecraftEvent),
      ev ∈ blockUpdateHandler ob nb t → eventPosition ev = some nb.position) ∧
    (∀ (b : Block) (ds t : Nat) (ev : MinecraftEvent),
      ev ∈ blockBreakHandler b ds t → eventPosition ev = some b.position) := by
  refine ⟨?_, ?_, ?_, ?_, ?_, ?_, ?_, ?_, ?_⟩
  · intro p
    exact ⟨by simp [floorVec], by simp [floorVec], by simp [floorVec]⟩
  · intro p u t
    cases p <;> simp [spawnHandlerEvent, eventPosition]
  · intro ent t
    exact ⟨by simp [entityHurtHandlerEvent, eventPosition],
      by simp [entityHurtHandlerEvent, eventHealth]⟩
  · intro ent t
    exact ⟨by simp [entityDeadHandlerEvent, eventPosition],
      by simp [entitySpawnHandlerEvent, eventPosition]⟩
  · intro i p t
    cases p <;> simp [itemDropHandlerEvent, eventPosition]
  · intro p t
    exact ⟨by cases p <;> simp [deathHandlerEvent, eventPosition],
      by cases p <;> simp [respawnHandlerEvent, eventPosition]⟩
  · intro st now p g ev hev
    by_cases hlt : now - st.lastMoveTime < 500
    · simp [moveHandler, hlt] at hev
    · simp [moveHandler, hlt] at hev
      subst hev
      simp [eventPosition]
  · intro ob nb t ev hev
    cases ob with
    | none => simp [blockUpdateHandler] at hev
    | some o =>
      by_cases hty : o.type ≠ nb.type
      · simp [blockUpdateHandler, hty] at hev
        subst hev
        simp [eventPosition]
      · simp [blockUpdateHandler, hty] at hev
  · intro b ds t ev hev
    by_cases hds : ds == 9
    · simp [blockBreakHandler, hds] at hev
      subst hev
      simp [eventPosition]
    · simp [blockBreakHandler, hds] at hev

/-- The event the counterexample's block update produces. -/
def blockUpdateSample : MinecraftEvent :=
  ⟨"block_update", 7, .info, "方块更新: air -> stone",
   some { position := some ⟨threeHalves, 0, 0⟩, blockType := some 1,
          blockName := some "stone", oldBlockType := some 0 }⟩

/-- Witness for `numeric_truncation_amended` at concrete inputs. -/
theorem numeric_truncation_witness :
    isIntVec (floorVec ⟨threeHalves, 0, 0⟩) ∧
      eventPosition (spawnHandlerEvent (some ⟨threeHalves, 0, 0⟩) "R" 1) =
        (some (⟨threeHalves, 0, 0⟩ : Vec3)).map floorVec ∧
      eventPosition blockUpdateSample = some halfBlock.position :=
  ⟨numeric_truncation_amended.1 ⟨threeHalves, 0, 0⟩,
   numeric_truncation_amended.2.1 (some ⟨threeHalves, 0, 0⟩) "R" 1,
   numeric_truncation_amended.2.2.2.2.2.2.2.1 (some airBlock) halfBlock 7
     blockUpdateSample (by decide)⟩

/-- Recognizer for login signals. -/
def isLoginSig : ConnSignal → Bool
  | .loginSig => true
  | _ => false

/-- Recognizer for kicked signals. -/
def isKickedSig : ConnSignal → Bool
  | .kickedSig _ => true
  | _ => false

/-- Recognizer for disconnect signals. -/
def isEndSig : ConnSignal → Bool
  | .endSig _ => true
  | _ => false

/-- The spawn events a once-registered handler produces from a signal
sequence: exactly one, built from the first spawn signal, when one exists. -/
def firstSpawnEvents (b : String) (sigs : List (Nat × ConnSignal)) :
    List MinecraftEvent :=
  match sigs.find? (fun s => isSpawnSig s.2) with
  | some (t, ConnSignal.spawnSig p) => [spawnHandlerEvent p b t]
  | _ => []

/-- A disarmed spawn handler never emits a spawn-typed event again. -/
theorem processConnSignals_disarmed_spawn (b : String) :
    ∀ sigs : List (Nat × ConnSignal),
      (processConnSignals b false sigs).filter (fun e => e.type == "spawn") = [] := by
  intro sigs
  induction sigs with
  | nil => rfl
  | cons s sigs ih =>
    obtain ⟨t, c⟩ := s
    cases c with
    | spawnSig p =>
      simpa [processConnSignals, handleConnSignal] using ih
    | loginSig =>
      simpa [processConnSignals, handleConnSignal, loginHandlerEvent] using ih
    | kickedSig r =>
      simpa [processConnSignals, handleConnSignal, kickedHandlerEvent] using ih
    | endSig r =>
      simpa [processConnSignals, handleConnSignal, endHandlerEvent] using ih

/-- Every spawn-typed event the connection handlers emit carries severity
success (the fixed severity table maps spawn to success). -/
theorem processConnSignals_spawn_success (b : String) :
    ∀ (sigs : List (Nat × ConnSignal)) (armed : Bool),
      ∀ ev ∈ processConnSignals b armed sigs, ev.type = "spawn" →
        ev.severity = .success := by
  intro sigs
  induction sigs with
  | nil =>
    intro armed ev hev
    simp [processConnSignals] at hev
  | cons s sigs ih =>
    intro armed ev hev htype
    obtain ⟨t, c⟩ := s
    cases c with
    | spawnSig p =>
      cases armed <;> simp only [processConnSignals, handleConnSignal] at hev
      · exact ih false ev (by simpa using hev) htype
      · rcases (by simpa using hev : ev = spawnHandlerEvent p b t ∨
            ev ∈ processConnSignals b false sigs) with h | h
        · rw [h]
          rfl
        · exact ih false ev h htype
    | loginSig =>
      simp only [processConnSignals, handleConnSignal] at hev
      rcases (by simpa using hev : ev = loginHandlerEvent b t ∨
          ev ∈ processConnSignals b armed sigs) with h | h
      · rw [h] at htype
        simp [loginHandlerEvent] at htype
      · exact ih armed ev h htype
    | kickedSig r =>
      simp only [processConnSignals, handleConnSignal] at hev
      rcases (by simpa using hev : ev = kickedHandlerEvent b r t ∨
          ev ∈ processConnSignals b armed sigs) with h | h
      · rw [h] at htype
        simp [kickedHandlerEvent] at htype
      · exact ih armed ev h htype
    | endSig r =>
      simp only [processConnSignals, handleConnSignal] at hev
      rcases (by simpa using hev : ev = endHandlerEvent r t ∨
          ev ∈ processConnSignals b armed sigs) with h | h
      · rw [h] at htype
        simp [endHandlerEvent] at htype
      · exact ih armed ev h htype

/-- The `on`-registered lifecycle handlers fire once per occurrence,
whatever the spawn arming state. -/
theorem processConnSignals_counts (b : String) :
    ∀ (sigs : List (Nat × ConnSignal)) (armed : Bool),
      ((processConnSignals b armed sigs).filter
          (fun e => e.type == "login")).length =
          (sigs.filter (fun s => isLoginSig s.2)).length ∧
        ((processConnSignals b armed sigs).filter
            (fun e => e.type == "kicked")).length =
          (sigs.filter (fun s => isKickedSig s.2)).length ∧
        ((processConnSignals b armed sigs).filter
            (fun e => e.type == "end")).length =
          (sigs.filter (fun s => isEndSig s.2)).length := by
  intro sigs
  induction sigs with
  | nil => intro armed; exact ⟨rfl, rfl, rfl⟩
  | cons s sigs ih =>
    intro armed
    obtain ⟨t, c⟩ := s
    cases c with
    | spawnSig p =>
      cases armed
      · simpa [processConnSignals, handleConnSignal, isLoginSig, isKickedSig,
          isEndSig] using ih false
      · simpa [processConnSignals, handleConnSignal, spawnHandlerEvent, isLoginSig,
          isKickedSig, isEndSig] using ih false
    | loginSig =>
      simpa [processConnSignals, handleConnSignal, loginHandlerEvent, isLoginSig,
        isKickedSig, isEndSig] using ih armed
    | kickedSig r =>
      simpa [processConnSignals, handleConnSignal, kickedHandlerEvent, isLoginSig,
        isKickedSig, isEndSig] using ih armed
    | endSig r =>
      simpa [processConnSignals, handleConnSignal, endHandlerEvent, isLoginSig,
        isKickedSig, isEndSig] using ih armed

/-- C10: the spawn handler is registered with `bot.once` while the other
lifecycle handlers use `bot.on`: over any signal sequence, the spawn-typed
events are exactly the one built from the first spawn signal (none when no
spawn signal occurs), every spawn event carries severity success, and each
login/kicked/end signal contributes exactly one event of its kind. -/
theorem spawn_once_only (b : String) (sigs : List (Nat × ConnSignal)) :
    (processConnSignals b true sigs).filter (fun e => e.type == "spawn") =
        firstSpawnEvents b sigs ∧
      (∀ ev ∈ processConnSignals b true sigs, ev.type = "spawn" →
        ev.severity = .success) ∧
      ((processConnSignals b true sigs).filter
          (fun e => e.type == "login")).length =
        (sigs.filter (fun s => isLoginSig s.2)).length ∧
      ((processConnSignals b true sigs).filter
          (fun e => e.type == "kicked")).length =
        (sigs.filter (fun s => isKickedSig s.2)).length ∧
      ((processConnSignals b true sigs).filter
          (fun e => e.type == "end")).length =
        (sigs.filter (fun s => isEndSig s.2)).length := by
  refine ⟨?_, processConnSignals_spawn_success b sigs true,
    (processConnSignals_counts b sigs true).1,
    (processConnSignals_counts b sigs true).2.1,
    (processConnSignals_counts b sigs true).2.2⟩
  induction sigs with
  | nil => rfl
  | cons s sigs ih =>
    obtain ⟨t, c⟩ := s
    cases c with
    | spawnSig p =>
      simp only [processConnSignals, handleConnSignal]
      have hd := processConnSignals_disarmed_spawn b sigs
      simp [firstSpawnEvents, isSpawnSig, spawnHandlerEvent, hd]
    | loginSig =>
      simp only [processConnSignals, handleConnSignal]
      simpa [firstSpawnEvents, isSpawnSig, loginHandlerEvent] using ih
    | kickedSig r =>
      simp only [processConnSignals, handleConnSignal]
      simpa [firstSpawnEvents, isSpawnSig, kickedHandlerEvent] using ih
    | endSig r =>
      simp only [processConnSignals, handleConnSignal]
      simpa [firstSpawnEvents, isSpawnSig, endHandlerEvent] using ih

/-- Witness for `spawn_once_only`: two spawn signals around a login signal
yield exactly one spawn event, from the first spawn signal. -/
theorem spawn_once_only_witness :
    ((processConnSignals "R" true
          [(1, ConnSignal.spawnSig none), (2, ConnSignal.loginSig),
            (3, ConnSignal.spawnSig none)]).filter
        (fun e => e.type == "spawn") =
      firstSpawnEvents "R"
        [(1, ConnSignal.spawnSig none), (2, ConnSignal.loginSig),
          (3, ConnSignal.spawnSig none)]) ∧
      ((processConnSignals "R" true
            [(1, ConnSignal.spawnSig none), (2, ConnSignal.loginSig),
              (3, ConnSignal.spawnSig none)]).filter
          (fun e => e.type == "login")).length =
        ([(1, ConnSignal.spawnSig none), (2, ConnSignal.loginSig),
          (3, ConnSignal.spawnSig none)].filter
            (fun s => isLoginSig s.2)).length :=
  ⟨(spawn_once_only "R" _).1, (spawn_once_only "R" _).2.2.1⟩
